import Mathlib

/-!
Verification of the pipeline graph engine of the accelent repository.

The definitions below are a shallow embedding of the TypeScript source:

* the node and edge data model of src/types/Pipeline.ts;
* the graph operations of src/PipelineEditor.tsx
  (handleNodeOutputUpdate, removeNode, handleDeleteEdge, onConnect,
  onAddNode, findClosestNode, createConnection, the unique-naming loop
  of onDrop and onTabDrop);
* the debounced classification logic of
  src/components/EditorPanel.tsx (handleEditorChange, classifyContent);
* the execution guard of the Prompt node
  (executedNodes and the mount effect of PromptNode);
* the input processing of src/components/nodes/SpreadsheetNode.tsx.

Machine numbers are modelled as Int (pixel coordinates and millisecond
timestamps are small integers in every scenario the claims mention) and
JSON numbers as Rat.  External collaborators (the network, JSON.parse)
are modelled as explicit parameters or outcome data types.
-/

/-! ## Data model: nodes, edges, pipeline state (src/types/Pipeline.ts) -/

/-- A 2D canvas coordinate.  The source stores positions as
JavaScript numbers; the scenarios of the claims only ever use integral
pixel values, so coordinates are embedded as Int. -/
structure Pos where
  x : Int
  y : Int
  deriving DecidableEq, Repr

/-- The NodeType enum of src/types/Pipeline.ts restricted to the four
members produced by createNodeTypes in src/PipelineEditor.tsx. -/
inductive NodeType where
  | DATA_SOURCE
  | PROMPT_TEMPLATE
  | SPREADSHEET
  | DISPLAY
  deriving DecidableEq, Repr

/-- The NodeData record of src/types/Pipeline.ts.  Optional string fields
are Option String; undefined is none.  Fields never read by any verified
operation (sourceConfig, tabId) are omitted. -/
structure NodeData where
  label : String
  sourceType : Option String := none
  displayType : Option String := none
  prompt : Option String := none
  input : Option String := none
  output : Option String := none
  deriving DecidableEq, Repr

/-- A react-flow node as used by PipelineEditor. -/
structure FlowNode where
  id : String
  ntype : NodeType
  position : Pos
  data : NodeData
  deriving DecidableEq, Repr

/-- A react-flow edge: direction encodes data flow source -> target. -/
structure FlowEdge where
  id : String
  source : String
  target : String
  deriving DecidableEq, Repr

/-- The two state variables of PipelineEditorContent that the graph
operations read and write. -/
structure PipelineState where
  nodes : List FlowNode
  edges : List FlowEdge
  deriving DecidableEq, Repr

/-! ## Graph operations (src/PipelineEditor.tsx) -/

/-- Spread-update of a node with a fresh output value, as done by the
updateNodeOutput event listener. -/
def updateOutput (n : FlowNode) (out : String) : FlowNode :=
  { n with data := { n.data with output := some out } }

/-- handleNodeOutputUpdate (src/PipelineEditor.tsx lines 84-109): the
listener for the updateNodeOutput window event.  It maps over the node
list and replaces the output of the node whose id matches; no other
node is touched and no edge is consulted. -/
def handleNodeOutputUpdate (s : PipelineState) (nodeId out : String) :
    PipelineState :=
  { s with
    nodes := s.nodes.map fun n => if n.id = nodeId then updateOutput n out else n }

/-- removeNode (src/PipelineEditor.tsx lines 111-124): filters the node
out of the node list and filters out every edge incident to it.  The
data of the remaining nodes is not modified. -/
def removeNode (s : PipelineState) (nodeId : String) : PipelineState :=
  { nodes := s.nodes.filter fun n => n.id ≠ nodeId,
    edges := s.edges.filter fun e => e.source ≠ nodeId && e.target ≠ nodeId }

/-- handleDeleteEdge (src/PipelineEditor.tsx lines 635-642): filters the
edge with the given id out of the edge list.  The node list is not
touched. -/
def handleDeleteEdge (s : PipelineState) (edgeId : String) : PipelineState :=
  { s with edges := s.edges.filter fun e => e.id ≠ edgeId }

/-- A react-flow Connection with both endpoints present (react-flow only
invokes onConnect with a complete connection). -/
structure ConnectionRF where
  source : String
  target : String
  deriving DecidableEq, Repr

/-- Modelled from the react-flow library helper addEdge used by
onConnect: appends a new edge for the connection unless an edge with the
same endpoints already exists. -/
def addEdgeRF (conn : ConnectionRF) (eds : List FlowEdge) : List FlowEdge :=
  if eds.any fun e => e.source = conn.source && e.target = conn.target then eds
  else eds ++ [{ id := "reactflow__edge-" ++ conn.source ++ "-" ++ conn.target,
                 source := conn.source, target := conn.target }]

/-- onConnect (src/PipelineEditor.tsx lines 168-200): appends the edge,
then, when both endpoint nodes are found, rewrites the target node so
that its input becomes the source node output (empty string when that
output is undefined) and its output is reset to undefined. -/
def onConnect (s : PipelineState) (conn : ConnectionRF) : PipelineState :=
  let edges2 := addEdgeRF conn s.edges
  match s.nodes.find? (fun n => n.id = conn.source),
        s.nodes.find? (fun n => n.id = conn.target) with
  | some srcN, some tgtN =>
      { nodes := s.nodes.map fun n =>
          if n.id = tgtN.id then
            { n with data := { n.data with
                input := some (srcN.data.output.getD ""),
                output := none } }
          else n,
        edges := edges2 }
  | _, _ => { s with edges := edges2 }

/-! ## Claim C1: propagation on output update -/

/-- Concrete two-node pipeline used to refute claim C1: an edge A -> B
where B still carries a stale input and output. -/
def c1State : PipelineState :=
  { nodes :=
      [ { id := "A", ntype := .DATA_SOURCE, position := ⟨0, 0⟩,
          data := { label := "A", input := some "", output := none } },
        { id := "B", ntype := .PROMPT_TEMPLATE, position := ⟨0, 100⟩,
          data := { label := "B", input := some "", output := some "old" } } ],
    edges := [ { id := "eAB", source := "A", target := "B" } ] }

/-- Claim C1 is false on the code: updating the output of node A over
the updateNodeOutput path leaves the input of its edge target B
unchanged (still the stale empty string) and leaves the output of B in
place, although the claim demands that B.input become the fresh output
of A and that B.output be reset to undefined. -/
theorem c1_counterexample :
    (((handleNodeOutputUpdate c1State "A" "fresh").nodes.find?
        (fun n => n.id = "B")).map fun n => (n.data.input, n.data.output))
      = some (some "", some "old")
    ∧ (some "" : Option String) ≠ some "fresh"
    ∧ { id := "eAB", source := "A", target := "B" } ∈ c1State.edges := by
  refine ⟨rfl, by decide, by decide⟩

/-- Amended claim C1: the updateNodeOutput path only rewrites the output
of the updated node itself; the inputs of all nodes are unchanged by it
and every other node is untouched.  Downstream inputs are refreshed only
when an edge is created through onConnect, at which point the target
node input becomes the source node output (or the empty string when the
source output is undefined) and the target output is reset to
undefined. -/
theorem c1_amended (s : PipelineState) (nid out : String) :
    ((handleNodeOutputUpdate s nid out).nodes.map fun n => n.data.input)
      = (s.nodes.map fun n => n.data.input)
    ∧ (∀ n ∈ s.nodes, n.id ≠ nid →
        n ∈ (handleNodeOutputUpdate s nid out).nodes)
    ∧ (∀ (conn : ConnectionRF) (srcN tgtN : FlowNode),
        s.nodes.find? (fun n => n.id = conn.source) = some srcN →
        s.nodes.find? (fun n => n.id = conn.target) = some tgtN →
        ∀ m ∈ (onConnect s conn).nodes, m.id = conn.target →
          m.data.input = some (srcN.data.output.getD "")
          ∧ m.data.output = none) := by
  refine ⟨?_, ?_, ?_⟩
  · simp only [handleNodeOutputUpdate, List.map_map]
    apply List.map_congr_left
    intro n _
    by_cases h : n.id = nid <;> simp [h, updateOutput]
  · intro n hn hne
    simp only [handleNodeOutputUpdate, List.mem_map]
    exact ⟨n, hn, by simp [hne]⟩
  · intro conn srcN tgtN hsrc htgt m hm hmid
    have htgtid : tgtN.id = conn.target := by
      have := List.find?_some htgt
      simpa using this
    simp only [onConnect, hsrc, htgt] at hm
    rcases List.mem_map.mp hm with ⟨n0, _, hn0⟩
    by_cases h : n0.id = tgtN.id
    · rw [if_pos h] at hn0
      subst hn0
      exact ⟨rfl, rfl⟩
    · rw [if_neg h] at hn0
      subst hn0
      exact absurd (hmid.trans htgtid.symm) h

/-- Concrete witness state for the amended claim C1. -/
def c1wState : PipelineState :=
  { nodes :=
      [ { id := "A", ntype := .DATA_SOURCE, position := ⟨0, 0⟩,
          data := { label := "A", input := some "", output := some "hello" } },
        { id := "B", ntype := .PROMPT_TEMPLATE, position := ⟨0, 100⟩,
          data := { label := "B", input := some "", output := some "old" } } ],
    edges := [] }

/-- Witness for the amended claim C1 at a concrete pipeline: connecting
A to B propagates the output "hello" of A into the input of B and
resets the output of B. -/
theorem c1_amended_witness :
    ((handleNodeOutputUpdate c1wState "A" "x").nodes.map fun n => n.data.input)
      = (c1wState.nodes.map fun n => n.data.input)
    ∧ ∀ m ∈ (onConnect c1wState ⟨"A", "B"⟩).nodes, m.id = "B" →
        m.data.input = some "hello" ∧ m.data.output = none := by
  have h := c1_amended c1wState "A" "x"
  refine ⟨h.1, ?_⟩
  intro m hm hmid
  exact h.2.2 ⟨"A", "B"⟩
    { id := "A", ntype := .DATA_SOURCE, position := ⟨0, 0⟩,
      data := { label := "A", input := some "", output := some "hello" } }
    { id := "B", ntype := .PROMPT_TEMPLATE, position := ⟨0, 100⟩,
      data := { label := "B", input := some "", output := some "old" } }
    rfl rfl m hm hmid

/-! ## Claim C2: deleting an edge -/

/-- Concrete pipeline used to refute claim C2: node B has the sole
incoming edge e1 and non-trivial input and output. -/
def c2State : PipelineState :=
  { nodes :=
      [ { id := "A", ntype := .DATA_SOURCE, position := ⟨0, 0⟩,
          data := { label := "A", input := some "", output := some "x" } },
        { id := "B", ntype := .PROMPT_TEMPLATE, position := ⟨0, 100⟩,
          data := { label := "B", input := some "x", output := some "y" } } ],
    edges := [ { id := "e1", source := "A", target := "B" } ] }

/-- Claim C2 is false on the code: deleting the sole incoming edge of B
does remove the edge, but the input of B stays "x" (the claim demands
the empty string) and the output of B stays "y" (the claim demands
undefined). -/
theorem c2_counterexample :
    (handleDeleteEdge c2State "e1").edges = []
    ∧ (((handleDeleteEdge c2State "e1").nodes.find? fun n => n.id = "B").map
        fun n => (n.data.input, n.data.output)) = some (some "x", some "y")
    ∧ (some "x" : Option String) ≠ some ""
    ∧ (some "y" : Option String) ≠ none := by
  refine ⟨by decide, rfl, by decide, by decide⟩

/-- Amended claim C2: the disconnect operation removes exactly the edge
with the given id from the edge collection and nothing else; in
particular the former target node keeps its input and output values
unchanged (they are not cleared). -/
theorem c2_amended (s : PipelineState) (edgeId : String) :
    (handleDeleteEdge s edgeId).nodes = s.nodes
    ∧ (∀ e : FlowEdge,
        e ∈ (handleDeleteEdge s edgeId).edges ↔ e ∈ s.edges ∧ e.id ≠ edgeId) := by
  refine ⟨rfl, ?_⟩
  intro e
  simp [handleDeleteEdge]

/-- Witness for the amended claim C2 on the concrete pipeline of the
counterexample: the deleted edge is gone and the node list survives. -/
theorem c2_amended_witness :
    (handleDeleteEdge c2State "e1").nodes = c2State.nodes
    ∧ (¬ ({ id := "e1", source := "A", target := "B" } : FlowEdge)
          ∈ (handleDeleteEdge c2State "e1").edges) := by
  have h := c2_amended c2State "e1"
  refine ⟨h.1, ?_⟩
  intro hmem
  exact ((h.2 _).mp hmem).2 rfl

/-! ## Claim C3: removing a node -/

/-- Concrete pipeline used to refute the input-reset part of claim C3:
edge A -> B where B carries the propagated input "x". -/
def c3State : PipelineState :=
  { nodes :=
      [ { id := "A", ntype := .DATA_SOURCE, position := ⟨0, 0⟩,
          data := { label := "A", input := some "", output := some "x" } },
        { id := "B", ntype := .PROMPT_TEMPLATE, position := ⟨0, 100⟩,
          data := { label := "B", input := some "x", output := none } } ],
    edges := [ { id := "eAB", source := "A", target := "B" } ] }

/-- Claim C3 is false on the code: removeNode does remove node A and the
incident edge A -> B, but the input of B, which has just lost its
upstream source, stays "x" instead of being reset to the empty
string. -/
theorem c3_counterexample :
    (removeNode c3State "A").edges = []
    ∧ (((removeNode c3State "A").nodes.find? fun n => n.id = "B").map
        fun n => n.data.input) = some (some "x")
    ∧ (some "x" : Option String) ≠ some "" := by
  refine ⟨by decide, rfl, by decide⟩

/-- Amended claim C3: removeNode removes exactly the node with the given
id and every edge whose source or target equals that id; every other
node survives with its data, in particular its input, unchanged (no
input is reset to the empty string). -/
theorem c3_amended (s : PipelineState) (nodeId : String) :
    (∀ n : FlowNode,
        n ∈ (removeNode s nodeId).nodes ↔ n ∈ s.nodes ∧ n.id ≠ nodeId)
    ∧ (∀ e : FlowEdge,
        e ∈ (removeNode s nodeId).edges
          ↔ e ∈ s.edges ∧ e.source ≠ nodeId ∧ e.target ≠ nodeId) := by
  constructor
  · intro n
    simp [removeNode]
  · intro e
    simp [removeNode]

/-- Witness for the amended claim C3 on the concrete pipeline of the
counterexample: after removing A, node B is still present and the edge
A -> B is gone. -/
theorem c3_amended_witness :
    ({ id := "B", ntype := .PROMPT_TEMPLATE, position := ⟨0, 100⟩,
       data := { label := "B", input := some "x", output := none } } : FlowNode)
      ∈ (removeNode c3State "A").nodes
    ∧ ¬ ({ id := "eAB", source := "A", target := "B" } : FlowEdge)
        ∈ (removeNode c3State "A").edges := by
  have h := c3_amended c3State "A"
  constructor
  · exact (h.1 _).mpr ⟨by decide, by decide⟩
  · intro hmem
    exact ((h.2 _).mp hmem).2.1 rfl

/-! ## Decimal rendering of the copy counter

The unique-naming loops build candidate labels with a JavaScript
template string, which renders the counter in decimal.  The rendering is
embedded explicitly (fuel-based, so that it reduces in the kernel) and
proved injective, which is what makes the naming loop terminate. -/

/-- The decimal digit characters used by JavaScript number-to-string
conversion. -/
def digitChar (d : Nat) : Char :=
  match d with
  | 0 => '0'
  | 1 => '1'
  | 2 => '2'
  | 3 => '3'
  | 4 => '4'
  | 5 => '5'
  | 6 => '6'
  | 7 => '7'
  | 8 => '8'
  | 9 => '9'
  | _ => '*'

/-- Little-endian decimal digits of a natural number, with explicit
fuel so that the definition is structural. -/
def decDigitsF : Nat → Nat → List Nat
  | 0, _ => []
  | f + 1, n => if n = 0 then [] else n % 10 :: decDigitsF f (n / 10)

/-- Little-endian decimal digits of a natural number. -/
def decDigits (n : Nat) : List Nat :=
  decDigitsF n n

/-- Recombines little-endian decimal digits into the number. -/
def unDigits : List Nat → Nat
  | [] => 0
  | d :: ds => d + 10 * unDigits ds

theorem unDigits_decDigitsF : ∀ f n, n ≤ f → unDigits (decDigitsF f n) = n := by
  intro f
  induction f with
  | zero =>
    intro n hn
    have : n = 0 := Nat.le_zero.mp hn
    simp [this, decDigitsF, unDigits]
  | succ f ih =>
    intro n hn
    by_cases h0 : n = 0
    · simp [h0, decDigitsF, unDigits]
    · have hdiv : n / 10 ≤ f := by omega
      simp only [decDigitsF, h0, if_false, unDigits, ih (n / 10) hdiv]
      omega

theorem decDigits_inj {m n : Nat} (h : decDigits m = decDigits n) : m = n := by
  have hm : unDigits (decDigits m) = m := unDigits_decDigitsF m m (le_refl m)
  have hn : unDigits (decDigits n) = n := unDigits_decDigitsF n n (le_refl n)
  rw [← hm, ← hn, h]

theorem decDigitsF_lt_ten : ∀ f n d, d ∈ decDigitsF f n → d < 10 := by
  intro f
  induction f with
  | zero => intro n d hd; simp [decDigitsF] at hd
  | succ f ih =>
    intro n d hd
    by_cases h0 : n = 0
    · simp [decDigitsF, h0] at hd
    · simp only [decDigitsF, h0, if_false, List.mem_cons] at hd
      rcases hd with rfl | hd
      · omega
      · exact ih (n / 10) d hd

theorem digitChar_inj {a b : Nat} (ha : a < 10) (hb : b < 10)
    (h : digitChar a = digitChar b) : a = b := by
  interval_cases a <;> interval_cases b <;> revert h <;> decide

theorem map_digitChar_inj : ∀ l₁ l₂ : List Nat, (∀ x ∈ l₁, x < 10) →
    (∀ x ∈ l₂, x < 10) → l₁.map digitChar = l₂.map digitChar → l₁ = l₂ := by
  intro l₁
  induction l₁ with
  | nil => intro l₂ _ _ h; cases l₂ <;> simp_all
  | cons a l ih =>
    intro l₂ h₁ h₂ h
    cases l₂ with
    | nil => simp at h
    | cons b l' =>
      simp only [List.map_cons, List.cons.injEq] at h
      have hab : a = b :=
        digitChar_inj (h₁ a (by simp)) (h₂ b (by simp)) h.1
      have htl : l = l' :=
        ih l' (fun x hx => h₁ x (by simp [hx])) (fun x hx => h₂ x (by simp [hx])) h.2
      rw [hab, htl]

/-- Decimal string rendering of a natural number, as produced by a
JavaScript template string for a non-negative integer counter. -/
def decRepr (n : Nat) : String :=
  if n = 0 then "0" else ⟨(decDigits n).reverse.map digitChar⟩

theorem decRepr_inj {m n : Nat} (hm : 1 ≤ m) (hn : 1 ≤ n)
    (h : decRepr m = decRepr n) : m = n := by
  have hm0 : m ≠ 0 := by omega
  have hn0 : n ≠ 0 := by omega
  simp only [decRepr, hm0, hn0, if_false] at h
  have hdata : (decDigits m).reverse.map digitChar
      = (decDigits n).reverse.map digitChar := congrArg String.data h
  have hrev : (decDigits m).reverse = (decDigits n).reverse :=
    map_digitChar_inj _ _
      (fun x hx => decDigitsF_lt_ten m m x (List.mem_reverse.mp hx))
      (fun x hx => decDigitsF_lt_ten n n x (List.mem_reverse.mp hx)) hdata
  exact decDigits_inj (List.reverse_injective hrev)

/-- Candidate label built by the unique-naming loops: the base label
followed by a parenthesised copy counter. -/
def copyName (base : String) (n : Nat) : String :=
  base ++ " (Copy " ++ decRepr n ++ ")"

theorem copyName_inj (base : String) {m n : Nat} (hm : 1 ≤ m) (hn : 1 ≤ n)
    (h : copyName base m = copyName base n) : m = n := by
  have hdata := congrArg String.data h
  simp only [copyName, String.data_append] at hdata
  have h1 := List.append_cancel_right hdata
  have h2 := List.append_cancel_left h1
  exact decRepr_inj hm hn (String.ext h2)

/-! ## Unique naming (src/PipelineEditor.tsx lines 238-244, 338-344, 498-504) -/

/-- Fuel-based unfolding of the unique-naming while loop: starting at
counter c, return the first candidate copy name that is not among the
existing labels. -/
def uniqueLabelAux (labels : List String) (base : String) : Nat → Nat → String
  | 0, c => copyName base c
  | f + 1, c =>
    if copyName base c ∈ labels then uniqueLabelAux labels base f (c + 1)
    else copyName base c

/-- The unique-naming loop shared by onAddNode, onTabDrop and onDrop in
src/PipelineEditor.tsx: the requested base label is used as is when no
existing node carries it; otherwise candidates base (Copy 1),
base (Copy 2), ... are tried in order and the first free one is taken.
The fuel labels.length + 1 provably suffices because the candidate
names are pairwise distinct. -/
def uniqueLabel (labels : List String) (base : String) : String :=
  if base ∈ labels then uniqueLabelAux labels base (labels.length + 1) 1
  else base

theorem exists_free_copy (labels : List String) (base : String) :
    ∃ n, 1 ≤ n ∧ n ≤ labels.length + 1 ∧ copyName base n ∉ labels := by
  by_contra hall
  push_neg at hall
  have hnodup : ((List.range (labels.length + 1)).map
      fun i => copyName base (i + 1)).Nodup := by
    refine List.Nodup.map_on ?_ (List.nodup_range _)
    intro x _ y _ hxy
    have := copyName_inj base (m := x + 1) (n := y + 1) (by omega) (by omega) hxy
    omega
  have hsub : ((List.range (labels.length + 1)).map
      fun i => copyName base (i + 1)) ⊆ labels := by
    intro c hc
    rcases List.mem_map.mp hc with ⟨i, hi, rfl⟩
    have hi' : i < labels.length + 1 := List.mem_range.mp hi
    exact hall (i + 1) (by omega) (by omega)
  have hlen := (List.subperm_of_subset hnodup hsub).length_le
  simp at hlen

theorem uniqueLabelAux_spec : ∀ (f c : Nat) (labels : List String) (base : String),
    (∃ n, c ≤ n ∧ n < c + f ∧ copyName base n ∉ labels) →
    ∃ N, c ≤ N ∧ uniqueLabelAux labels base f c = copyName base N
      ∧ copyName base N ∉ labels
      ∧ ∀ m, c ≤ m → m < N → copyName base m ∈ labels := by
  intro f
  induction f with
  | zero =>
    intro c labels base hex
    rcases hex with ⟨n, h1, h2, _⟩
    omega
  | succ f ih =>
    intro c labels base hex
    by_cases hc : copyName base c ∈ labels
    · have hex' : ∃ n, c + 1 ≤ n ∧ n < (c + 1) + f ∧ copyName base n ∉ labels := by
        rcases hex with ⟨n, h1, h2, h3⟩
        refine ⟨n, ?_, by omega, h3⟩
        rcases Nat.eq_or_lt_of_le h1 with heq | hlt
        · exact absurd (heq ▸ hc) h3
        · omega
      rcases ih (c + 1) labels base hex' with ⟨N, hN1, hN2, hN3, hN4⟩
      refine ⟨N, by omega, ?_, hN3, ?_⟩
      · simp [uniqueLabelAux, hc, hN2]
      · intro m hm1 hm2
        rcases Nat.eq_or_lt_of_le hm1 with heq | hlt
        · exact heq ▸ hc
        · exact hN4 m (by omega) hm2
    · exact ⟨c, le_refl c, by simp [uniqueLabelAux, hc], hc,
        fun m h1 h2 => absurd h2 (by omega)⟩

/-- Claim C9: the unique-naming rule.  When no existing node carries the
requested base label it is used unchanged; when some node does, the new
label is the base followed by a copy suffix with the smallest counter
N >= 1 whose candidate is not already in use. -/
theorem c9_unique_naming (labels : List String) (base : String) :
    (base ∉ labels → uniqueLabel labels base = base)
    ∧ (base ∈ labels →
        ∃ N, 1 ≤ N ∧ uniqueLabel labels base = copyName base N
          ∧ copyName base N ∉ labels
          ∧ ∀ m, 1 ≤ m → m < N → copyName base m ∈ labels) := by
  constructor
  · intro h
    simp [uniqueLabel, h]
  · intro h
    rcases exists_free_copy labels base with ⟨n, h1, h2, h3⟩
    rcases uniqueLabelAux_spec (labels.length + 1) 1 labels base
      ⟨n, h1, by omega, h3⟩ with ⟨N, hN1, hN2, hN3, hN4⟩
    exact ⟨N, hN1, by simp [uniqueLabel, h, hN2], hN3, hN4⟩

/-- Witness for claim C9 at a concrete input: when "Source" is already
taken, the loop produces the candidate with counter 1, which is free. -/
theorem c9_witness :
    uniqueLabel ["Source"] "Source" = copyName "Source" 1
    ∧ copyName "Source" 1 ∉ ["Source"] := by
  rcases (c9_unique_naming ["Source"] "Source").2 (by decide) with
    ⟨N, hN1, hN2, hN3, hN4⟩
  have hN : N = 1 := by
    by_contra hne
    have h2 : 2 ≤ N := by omega
    have hmem := hN4 1 (by omega) (by omega)
    revert hmem
    decide
  subst hN
  exact ⟨hN2, hN3⟩

/-- Three successive palette requests for the label Source produce
Source, Source (Copy 1) and Source (Copy 2), as the spec scenario
states. -/
theorem uniqueLabel_source_example :
    uniqueLabel [] "Source" = "Source"
    ∧ uniqueLabel ["Source"] "Source" = "Source (Copy 1)"
    ∧ uniqueLabel ["Source", "Source (Copy 1)"] "Source" = "Source (Copy 2)" := by
  refine ⟨rfl, by decide, by decide⟩

/-! ## Palette placement (onAddNode, src/PipelineEditor.tsx lines 226-323) -/

/-- NODE_WIDTH constant of src/PipelineEditor.tsx. -/
def NODE_WIDTH : Int := 180

/-- NODE_HEIGHT constant of src/PipelineEditor.tsx. -/
def NODE_HEIGHT : Int := 100

/-- The base label used by onAddNode.  The source builds it with
a template string replacing the first underscore of the enum value by a
space; none of the four enum values has a second underscore. -/
def paletteBase : NodeType → String
  | .DATA_SOURCE => "New DATA SOURCE"
  | .PROMPT_TEMPLATE => "New PROMPT TEMPLATE"
  | .SPREADSHEET => "New SPREADSHEET"
  | .DISPLAY => "New DISPLAY"

/-- The kind-specific initial data object built by onAddNode for a new
node. -/
def initialNodeData : NodeType → String → NodeData
  | .DATA_SOURCE, name =>
      { label := name, sourceType := some "csv", input := some "", output := none }
  | .PROMPT_TEMPLATE, name =>
      { label := name, prompt := some "", input := some "", output := none }
  | .SPREADSHEET, name =>
      { label := name, sourceType := some "spreadsheet", input := some "",
        output := none }
  | .DISPLAY, name => { label := name, displayType := some "table" }

/-- onAddNode (src/PipelineEditor.tsx lines 226-323).  lowestY is the
maximum of 0 and the node y coordinates (the reduce starts from 0);
lowestNode is the first node attaining the maximal y (reduce keeps the
earlier node on ties); the new node is placed at the x of lowestNode
(or at the window centre minus half a node width when the graph is
empty) and at y = lowestY + 100.  When a lowest node exists, an edge
from it to the new node is appended and the new node input becomes the
lowest node output.  freshId stands for the Date.now() based id. -/
def onAddNode (s : PipelineState) (t : NodeType) (windowWidth : Int)
    (freshId : String) : PipelineState :=
  let lowestY : Int := s.nodes.foldl (fun m n => max m n.position.y) 0
  let lowestNode : Option FlowNode :=
    match s.nodes with
    | [] => none
    | n0 :: rest =>
        some (rest.foldl
          (fun lowest n => if n.position.y > lowest.position.y then n else lowest) n0)
  let xPosition : Int :=
    match lowestNode with
    | some ln => ln.position.x
    | none => windowWidth / 2 - NODE_WIDTH / 2
  let nodeName := uniqueLabel (s.nodes.map fun n => n.data.label) (paletteBase t)
  let newNode : FlowNode :=
    { id := freshId, ntype := t,
      position := { x := xPosition, y := lowestY + 100 },
      data := initialNodeData t nodeName }
  let s1 : PipelineState := { s with nodes := s.nodes ++ [newNode] }
  match lowestNode with
  | none => s1
  | some ln =>
      { nodes := s1.nodes.map fun n =>
          if n.id = freshId then
            { n with data := { n.data with
                input := some (ln.data.output.getD ""), output := none } }
          else n,
        edges := s1.edges ++
          [{ id := "edge-" ++ ln.id ++ "-" ++ freshId,
             source := ln.id, target := freshId }] }

/-- Claim C4, evaluated at the failing input: a palette add on an empty
graph with a 1920 x 1080 window.  The code places the node at
x = 1920 / 2 - 180 / 2 = 870 and at the fixed y = 100, whereas the
claim (and the requirements notes shipped with the repository) demand
y = 15 percent of the canvas height, which is 162 for a 1080 pixel high
canvas, and x at the centre of the visible canvas region.  No edge is
created on the empty graph. -/
theorem c4_palette_empty_eval :
    ((onAddNode { nodes := [], edges := [] } NodeType.DATA_SOURCE 1920
        "node-1").nodes.map fun n => (n.position.x, n.position.y))
      = [((870 : Int), (100 : Int))]
    ∧ (100 : Int) ≠ 15 * 1080 / 100
    ∧ (onAddNode { nodes := [], edges := [] } NodeType.DATA_SOURCE 1920
        "node-1").edges = [] := by
  refine ⟨rfl, by decide, rfl⟩

/-! ## Closest node and auto-connect direction
(findClosestNode, createConnection, src/PipelineEditor.tsx lines 39-67) -/

/-- Squared Euclidean distance between two positions.  The source
compares Math.sqrt of this quantity; sqrt is strictly monotone on
non-negative reals, so the comparisons below are the comparisons of the
source. -/
def dist2 (p q : Pos) : Int :=
  (p.x - q.x) * (p.x - q.x) + (p.y - q.y) * (p.y - q.y)

/-- findClosestNode (src/PipelineEditor.tsx lines 39-55): a fold keeping
the node with the smallest distance to the given position; the strict
comparison keeps the first-encountered node on ties, and the initial
minimum Infinity means the first node always replaces the empty
accumulator. -/
def findClosestNode (nodes : List FlowNode) (pos : Pos) : Option FlowNode :=
  nodes.foldl
    (fun acc n =>
      match acc with
      | none => some n
      | some c => if dist2 n.position pos < dist2 c.position pos then some n
                  else some c)
    none

/-- createConnection (src/PipelineEditor.tsx lines 57-67): the edge runs
from the visually higher node (smaller y) to the lower one; when the y
coordinates are equal, isAbove is false and the edge runs from the
second argument (the new node) to the first (the anchor). -/
def createConnection (sourceNode targetNode : FlowNode) : FlowEdge :=
  let isAbove := sourceNode.position.y < targetNode.position.y
  { id := "edge-" ++ sourceNode.id ++ "-" ++ targetNode.id,
    source := if isAbove then sourceNode.id else targetNode.id,
    target := if isAbove then targetNode.id else sourceNode.id }

/-- Binary step of findClosestNode once the accumulator is non-empty. -/
def pickCloser (pos : Pos) (c n : FlowNode) : FlowNode :=
  if dist2 n.position pos < dist2 c.position pos then n else c

theorem findClosestNode_cons (pos : Pos) :
    ∀ (l : List FlowNode) (c : FlowNode),
      findClosestNode (c :: l) pos = some (l.foldl (pickCloser pos) c) := by
  have haux : ∀ (l : List FlowNode) (c : FlowNode),
      l.foldl
        (fun acc n =>
          match acc with
          | none => some n
          | some c => if dist2 n.position pos < dist2 c.position pos then some n
                      else some c)
        (some c) = some (l.foldl (pickCloser pos) c) := by
    intro l
    induction l with
    | nil => intro c; rfl
    | cons n l ih =>
      intro c
      simp only [List.foldl_cons, pickCloser]
      by_cases h : dist2 n.position pos < dist2 c.position pos <;>
        simp [h, ih]
  intro l c
  simp only [findClosestNode, List.foldl_cons]
  exact haux l c

theorem foldl_pickCloser_split (pos : Pos) :
    ∀ (l : List FlowNode) (c : FlowNode),
      ∃ l₁ l₂, c :: l = l₁ ++ (l.foldl (pickCloser pos) c) :: l₂
        ∧ (∀ n ∈ l₁,
            dist2 (l.foldl (pickCloser pos) c).position pos < dist2 n.position pos)
        ∧ ∀ n ∈ c :: l,
            dist2 (l.foldl (pickCloser pos) c).position pos ≤ dist2 n.position pos := by
  intro l
  induction l with
  | nil =>
    intro c
    exact ⟨[], [], rfl, by simp, by simp⟩
  | cons n l ih =>
    intro c
    by_cases h : dist2 n.position pos < dist2 c.position pos
    · have hstep : (n :: l).foldl (pickCloser pos) c = l.foldl (pickCloser pos) n := by
        simp [pickCloser, h]
      rw [hstep]
      rcases ih n with ⟨l₁, l₂, hsplit, hstrict, hmin⟩
      have hminn : dist2 (l.foldl (pickCloser pos) n).position pos
          ≤ dist2 n.position pos := hmin n (List.mem_cons_self _ _)
      cases l₁ with
      | nil =>
        simp only [List.nil_append] at hsplit
        have hhead : n = l.foldl (pickCloser pos) n := by
          have hh := congrArg List.head? hsplit
          simpa using hh
        have htail : l = l₂ := by
          have ht := congrArg List.tail hsplit
          simpa using ht
        refine ⟨[c], l₂, ?_, ?_, ?_⟩
        · rw [List.singleton_append, ← hhead, htail]
        · intro x hx
          rcases List.mem_singleton.mp hx with rfl
          exact lt_of_le_of_lt hminn h
        · intro x hx
          rcases List.mem_cons.mp hx with rfl | hx'
          · exact le_of_lt (lt_of_le_of_lt hminn h)
          · exact hmin x hx'
      | cons a l₁' =>
        have ha : n = a := by
          have hh := congrArg List.head? hsplit
          simpa using hh
        subst ha
        have htail : l = l₁' ++ (l.foldl (pickCloser pos) n) :: l₂ := by
          have ht := congrArg List.tail hsplit
          simpa using ht
        refine ⟨c :: n :: l₁', l₂, ?_, ?_, ?_⟩
        · rw [List.cons_append, List.cons_append, ← htail]
        · intro x hx
          rcases List.mem_cons.mp hx with rfl | hx'
          · exact lt_of_le_of_lt hminn h
          · rcases List.mem_cons.mp hx' with rfl | hx''
            · exact hstrict x (List.mem_cons_self _ _)
            · exact hstrict x (List.mem_cons_of_mem _ hx'')
        · intro x hx
          rcases List.mem_cons.mp hx with rfl | hx'
          · exact le_of_lt (lt_of_le_of_lt hminn h)
          · exact hmin x hx'
    · have hstep : (n :: l).foldl (pickCloser pos) c = l.foldl (pickCloser pos) c := by
        simp [pickCloser, h]
      rw [hstep]
      rcases ih c with ⟨l₁, l₂, hsplit, hstrict, hmin⟩
      have hminc : dist2 (l.foldl (pickCloser pos) c).position pos
          ≤ dist2 c.position pos := hmin c (List.mem_cons_self _ _)
      have hn : dist2 (l.foldl (pickCloser pos) c).position pos
          ≤ dist2 n.position pos := by omega
      cases l₁ with
      | nil =>
        simp only [List.nil_append] at hsplit
        have hhead : c = l.foldl (pickCloser pos) c := by
          have hh := congrArg List.head? hsplit
          simpa using hh
        refine ⟨[], n :: l, ?_, by simp, ?_⟩
        · rw [List.nil_append, ← hhead]
        · intro x hx
          rcases List.mem_cons.mp hx with rfl | hx'
          · exact hminc
          · rcases List.mem_cons.mp hx' with rfl | hx''
            · exact hn
            · exact hmin x (List.mem_cons_of_mem _ hx'')
      | cons a l₁' =>
        have ha : c = a := by
          have hh := congrArg List.head? hsplit
          simpa using hh
        subst ha
        have htail : l = l₁' ++ (l.foldl (pickCloser pos) c) :: l₂ := by
          have ht := congrArg List.tail hsplit
          simpa using ht
        refine ⟨c :: n :: l₁', l₂, ?_, ?_, ?_⟩
        · rw [List.cons_append, List.cons_append, ← htail]
        · intro x hx
          rcases List.mem_cons.mp hx with rfl | hx'
          · exact hstrict x (List.mem_cons_self _ _)
          · rcases List.mem_cons.mp hx' with rfl | hx''
            · have hcstrict := hstrict c (List.mem_cons_self _ _)
              omega
            · exact hstrict x (List.mem_cons_of_mem _ hx'')
        · intro x hx
          rcases List.mem_cons.mp hx with rfl | hx'
          · exact hminc
          · rcases List.mem_cons.mp hx' with rfl | hx''
            · exact hn
            · exact hmin x (List.mem_cons_of_mem _ hx'')

/-- Concrete anchor node used to refute the tie case of claim C5. -/
def c5Anchor : FlowNode :=
  { id := "anchor", ntype := .DATA_SOURCE, position := ⟨0, 50⟩,
    data := { label := "anchor" } }

/-- Concrete dropped node with the same y coordinate as the anchor. -/
def c5New : FlowNode :=
  { id := "new", ntype := .DISPLAY, position := ⟨30, 50⟩,
    data := { label := "new" } }

/-- Claim C5 is false on the code in the tie case: when the new node and
the anchor have equal y coordinates, the created edge runs from the new
node to the anchor, while the claim demands anchor to new for equal
y. -/
theorem c5_counterexample :
    findClosestNode [c5Anchor] c5New.position = some c5Anchor
    ∧ c5New.position.y = c5Anchor.position.y
    ∧ (createConnection c5Anchor c5New).source = c5New.id
    ∧ (createConnection c5Anchor c5New).target = c5Anchor.id
    ∧ c5New.id ≠ c5Anchor.id := by
  refine ⟨rfl, rfl, rfl, rfl, by decide⟩

/-- Amended claim C5: the anchor chosen by findClosestNode is the
first-encountered node of minimal Euclidean distance from the position
the code passes (every node strictly earlier in node order is strictly
farther, and no node is closer), and the created edge runs new to
anchor when the y of the new node is less than or equal to the y of the
anchor, and anchor to new when the y of the anchor is strictly less
than the y of the new node. -/
theorem c5_amended (nodes : List FlowNode) (pos : Pos) (r : FlowNode)
    (hfind : findClosestNode nodes pos = some r) :
    (∃ l₁ l₂, nodes = l₁ ++ r :: l₂
        ∧ (∀ n ∈ l₁, dist2 r.position pos < dist2 n.position pos)
        ∧ ∀ n ∈ nodes, dist2 r.position pos ≤ dist2 n.position pos)
    ∧ ∀ newNode : FlowNode,
        (newNode.position.y ≤ r.position.y →
          (createConnection r newNode).source = newNode.id
          ∧ (createConnection r newNode).target = r.id)
        ∧ (r.position.y < newNode.position.y →
          (createConnection r newNode).source = r.id
          ∧ (createConnection r newNode).target = newNode.id) := by
  constructor
  · cases nodes with
    | nil => simp [findClosestNode] at hfind
    | cons c l =>
      rw [findClosestNode_cons] at hfind
      have hr := Option.some.inj hfind
      rcases foldl_pickCloser_split pos l c with ⟨l₁, l₂, hsplit, hstrict, hmin⟩
      rw [hr] at hsplit hstrict hmin
      exact ⟨l₁, l₂, hsplit, hstrict, hmin⟩
  · intro newNode
    constructor
    · intro hle
      have hnot : ¬ (r.position.y < newNode.position.y) := not_lt.mpr hle
      constructor <;> simp [createConnection, hnot]
    · intro hlt
      constructor <;> simp [createConnection, hlt]

/-- Concrete nodes for the witness of the amended claim C5. -/
def c5wA : FlowNode :=
  { id := "wa", ntype := .DATA_SOURCE, position := ⟨0, 0⟩,
    data := { label := "wa" } }

/-- Second concrete node, farther from the drop position. -/
def c5wB : FlowNode :=
  { id := "wb", ntype := .DISPLAY, position := ⟨100, 0⟩,
    data := { label := "wb" } }

/-- Concrete drop position for the witness of the amended claim C5. -/
def c5wPos : Pos := ⟨10, 0⟩

/-- Concrete dropped node above the anchor for the witness. -/
def c5wNew : FlowNode :=
  { id := "wnew", ntype := .DISPLAY, position := ⟨5, -20⟩,
    data := { label := "wnew" } }

/-- Witness for the amended claim C5 at concrete inputs: the anchor is
the nearer of the two nodes and the edge runs from the higher new node
to it. -/
theorem c5_amended_witness :
    (∃ l₁ l₂, [c5wA, c5wB] = l₁ ++ c5wA :: l₂
        ∧ (∀ n ∈ l₁, dist2 c5wA.position c5wPos < dist2 n.position c5wPos)
        ∧ ∀ n ∈ [c5wA, c5wB], dist2 c5wA.position c5wPos ≤ dist2 n.position c5wPos)
    ∧ (createConnection c5wA c5wNew).source = c5wNew.id
    ∧ (createConnection c5wA c5wNew).target = c5wA.id := by
  have h := c5_amended [c5wA, c5wB] c5wPos c5wA rfl
  have hdir := (h.2 c5wNew).1 (by decide)
  exact ⟨h.1, hdir.1, hdir.2⟩

/-! ## Debounced classification
(handleEditorChange, src/components/EditorPanel.tsx lines 347-399) -/

/-- CLASSIFICATION_PAUSE_TIME constant of EditorPanel.tsx, in
milliseconds. -/
def CLASSIFICATION_PAUSE_TIME : Int := 1000

/-- The mutable pieces of EditorPanel state that handleEditorChange
reads and writes: the lastChangeTime ref and the pending
classificationTimeout (fire time and the captured content). -/
structure DebounceState where
  lastChange : Int
  pending : Option (Int × String)
  deriving DecidableEq, Repr

/-- One content edit at time t with value v, exactly following
handleEditorChange: a pending timer that was due strictly before the
edit has already fired (emitting its classification call); an empty
value returns early; otherwise the pending timer is cleared, and the
edit either classifies immediately (when at least the pause time has
passed since the last change) or schedules a classification one pause
time later.  The returned list collects the classification calls
executed up to and including this edit. -/
def editStep (st : DebounceState) (t : Int) (v : String) :
    DebounceState × List (Int × String) :=
  let fired : List (Int × String) :=
    match st.pending with
    | some (ft, c) => if ft ≤ t then [(ft, c)] else []
    | none => []
  if v = "" then
    ({ st with pending :=
        match st.pending with
        | some (ft, c) => if ft ≤ t then none else some (ft, c)
        | none => none }, fired)
  else if CLASSIFICATION_PAUSE_TIME ≤ t - st.lastChange then
    ({ lastChange := t, pending := none }, fired ++ [(t, v)])
  else
    ({ lastChange := t, pending := some (t + CLASSIFICATION_PAUSE_TIME, v) },
      fired)

/-- Processes a list of edits in order, collecting classification
calls. -/
def runDebounceAux :
    DebounceState → List (Int × String) → DebounceState × List (Int × String)
  | st, [] => (st, [])
  | st, (t, v) :: es =>
    let r1 := editStep st t v
    let r2 := runDebounceAux r1.1 es
    (r2.1, r1.2 ++ r2.2)

/-- All classification calls produced by a sequence of edits, starting
from the component mount at initTime (which initialises the
lastChangeTime ref) and letting any timer still pending after the last
edit fire. -/
def runDebounce (initTime : Int) (edits : List (Int × String)) :
    List (Int × String) :=
  let r := runDebounceAux { lastChange := initTime, pending := none } edits
  r.2 ++
    (match r.1.pending with
     | some (ft, c) => [(ft, c)]
     | none => [])

/-- Edits whose inter-arrival gaps, including the gap from the given
reference time to the first edit, are all below the pause time, with
non-empty contents. -/
def chainedEdits : Int → List (Int × String) → Bool
  | _, [] => true
  | prev, (t, v) :: es =>
    decide (prev ≤ t) && decide (t - prev < CLASSIFICATION_PAUSE_TIME)
      && decide (v ≠ "") && chainedEdits t es

/-- The condition of claim C6 as stated: only the gaps between
consecutive edits are below the pause time (nothing is assumed about
the time before the first edit), with non-empty contents. -/
def interEditGaps : List (Int × String) → Bool
  | [] => true
  | [(_, v)] => decide (v ≠ "")
  | (t, v) :: (t', v') :: es =>
    decide (v ≠ "") && decide (t ≤ t')
      && decide (t' - t < CLASSIFICATION_PAUSE_TIME)
      && interEditGaps ((t', v') :: es)

/-- The last edit of a non-empty edit list. -/
def lastEdit : (Int × String) → List (Int × String) → (Int × String)
  | e, [] => e
  | _, e :: es => lastEdit e es

theorem editStep_chained (last t : Int) (v : String) (p : Option (Int × String))
    (hp : ∀ ft c, p = some (ft, c) → ft = last + CLASSIFICATION_PAUSE_TIME)
    (_h1 : last ≤ t) (h2 : t - last < CLASSIFICATION_PAUSE_TIME) (h3 : v ≠ "") :
    editStep { lastChange := last, pending := p } t v
      = ({ lastChange := t, pending := some (t + CLASSIFICATION_PAUSE_TIME, v) },
          []) := by
  have hns : ¬ (CLASSIFICATION_PAUSE_TIME ≤ t - last) := by omega
  cases p with
  | none => simp [editStep, h3, hns]
  | some q =>
    obtain ⟨ft, c⟩ := q
    have hft := hp ft c rfl
    have hnf : ¬ (ft ≤ t) := by omega
    simp [editStep, h3, hns, hnf]

theorem runDebounceAux_chained :
    ∀ (es : List (Int × String)) (e : Int × String) (last : Int)
      (p : Option (Int × String)),
      (∀ ft c, p = some (ft, c) → ft = last + CLASSIFICATION_PAUSE_TIME) →
      chainedEdits last (e :: es) = true →
      runDebounceAux { lastChange := last, pending := p } (e :: es)
        = ({ lastChange := (lastEdit e es).1,
             pending := some ((lastEdit e es).1 + CLASSIFICATION_PAUSE_TIME,
               (lastEdit e es).2) }, []) := by
  intro es
  induction es with
  | nil =>
    intro e last p hp hch
    obtain ⟨t, v⟩ := e
    simp only [chainedEdits, Bool.and_eq_true, decide_eq_true_eq] at hch
    obtain ⟨⟨⟨h1, h2⟩, h3⟩, -⟩ := hch
    have hstep := editStep_chained last t v p hp h1 h2 h3
    simp [runDebounceAux, hstep, lastEdit]
  | cons e2 es ih =>
    intro e last p hp hch
    obtain ⟨t, v⟩ := e
    simp only [chainedEdits, Bool.and_eq_true, decide_eq_true_eq] at hch
    obtain ⟨⟨⟨h1, h2⟩, h3⟩, hch'⟩ := hch
    have hstep := editStep_chained last t v p hp h1 h2 h3
    have hch2 : chainedEdits t (e2 :: es) = true := by
      obtain ⟨t2, v2⟩ := e2
      simp only [chainedEdits, Bool.and_eq_true, decide_eq_true_eq] at hch' ⊢
      exact hch'
    have ihres := ih e2 t (some (t + CLASSIFICATION_PAUSE_TIME, v))
      (by intro ft c h; injection h with h'; injection h' with ha hb; exact ha.symm ▸ rfl)
      hch2
    have hunfold : runDebounceAux { lastChange := last, pending := p }
          ((t, v) :: e2 :: es)
        = ((runDebounceAux
              (editStep { lastChange := last, pending := p } t v).1 (e2 :: es)).1,
           (editStep { lastChange := last, pending := p } t v).2
             ++ (runDebounceAux
                  (editStep { lastChange := last, pending := p } t v).1
                  (e2 :: es)).2) := rfl
    rw [hunfold, hstep]
    simp [ihres, lastEdit]

/-- Claim C6 is false on the code: the two edits at t = 1500 and
t = 1900 (each gap below one second) produce two classification calls,
an immediate one at the first edit (because more than one second had
passed since the mount at t = 0) and the debounced one at t = 2900,
while the claim demands exactly the single debounced call. -/
theorem c6_counterexample :
    interEditGaps [((1500 : Int), "a"), (1900, "b")] = true
    ∧ runDebounce 0 [(1500, "a"), (1900, "b")] = [(1500, "a"), (2900, "b")]
    ∧ runDebounce 0 [(1500, "a"), (1900, "b")]
        ≠ [((1900 : Int) + CLASSIFICATION_PAUSE_TIME, "b")] := by
  refine ⟨rfl, by decide, by decide⟩

/-- Amended claim C6: when additionally the first edit arrives less
than one second after the preceding content change (the time the
lastChangeTime ref was last written, initially the mount), every edit
of the burst takes the debounced branch, each new edit cancels the
pending classification and restarts the timer, and exactly one
classification call is executed, scheduled one pause time after the
last edit with the content of the last edit.  Without that extra
condition the first edit additionally triggers an immediate
classification, as the counterexample shows. -/
theorem c6_amended (initTime : Int) (e : Int × String)
    (es : List (Int × String))
    (hch : chainedEdits initTime (e :: es) = true) :
    runDebounce initTime (e :: es)
      = [((lastEdit e es).1 + CLASSIFICATION_PAUSE_TIME, (lastEdit e es).2)] := by
  have h := runDebounceAux_chained es e initTime none (by intro ft c hc; cases hc) hch
  simp [runDebounce, h]

/-- Witness for the amended claim C6 at concrete inputs: two quick
edits after the mount produce exactly one classification call, one
second after the second edit, carrying its content. -/
theorem c6_amended_witness :
    runDebounce 0 [((200 : Int), "a"), (500, "b")]
      = [((500 : Int) + CLASSIFICATION_PAUSE_TIME, "b")] := by
  exact c6_amended 0 (200, "a") [(500, "b")] (by decide)

/-! ## Classification (classifyContent, src/components/EditorPanel.tsx
lines 154-228) -/

/-- JSON values, used for the body of the external reply and for the
parsed classification object.  Numbers are embedded as Rat. -/
inductive JVal where
  | jnull
  | jbool (b : Bool)
  | jnum (q : Rat)
  | jstr (s : String)
  | jarr (xs : List JVal)
  | jobj (fields : List (String × JVal))

/-- Property access on a JSON value: defined on objects, undefined
elsewhere. -/
def jGet : JVal → String → Option JVal
  | .jobj fields, k => (fields.find? fun f => f.1 = k).map fun f => f.2
  | _, _ => none

/-- Index access on a JSON value: defined on arrays, undefined
elsewhere. -/
def jIdx : JVal → Nat → Option JVal
  | .jarr xs, i => xs.get? i
  | _, _ => none

/-- JavaScript truthiness of a JSON value. -/
def jTruthy : JVal → Bool
  | .jnull => false
  | .jbool b => b
  | .jnum q => decide (q ≠ 0)
  | .jstr s => decide (s ≠ "")
  | .jarr _ => true
  | .jobj _ => true

/-- Extracts a string, failing on any other shape (a non-string would
make the subsequent trim call throw, which lands in the same catch). -/
def asString : JVal → Option String
  | .jstr s => some s
  | _ => none

/-- The property chain result.candidates[0].content.parts[0].text of
classifyContent; any missing step throws in the source, which the outer
catch turns into the default classification. -/
def extractText (body : JVal) : Option String := do
  let cands ← jGet body "candidates"
  let c0 ← jIdx cands 0
  let content ← jGet c0 "content"
  let parts ← jGet content "parts"
  let p0 ← jIdx parts 0
  let t ← jGet p0 "text"
  asString t

/-- The code-fence clean-up of classifyContent: trim, remove every
occurrence of the json fence opener and of the plain fence, trim
again. -/
def cleanFences (s : String) : String :=
  (((s.trim).replace "```json" "").replace "```" "").trim

/-- The validation of the parsed classification object: type and format
must be truthy and confidence must be a number. -/
def validateFields (v : JVal) : Bool :=
  (match jGet v "type" with
   | some x => jTruthy x
   | none => false)
  && (match jGet v "format" with
      | some x => jTruthy x
      | none => false)
  && (match jGet v "confidence" with
      | some (.jnum _) => true
      | _ => false)

/-- The fixed default classification object of classifyContent. -/
def defaultClassification : JVal :=
  .jobj [("type", .jstr "dataset"), ("format", .jstr "json"),
         ("confidence", .jnum (0.8 : Rat))]

/-- Outcome of the fetch call: a rejected promise, or a response with
its ok flag and the JSON parse of its body (none when the body is not
valid JSON, in which case response.json() throws). -/
inductive FetchOutcome where
  | netError
  | response (ok : Bool) (body : Option JVal)

/-- The try block of classifyContent: every throw of the source is an
error value here.  The inner try around JSON.parse and the field
validation has its own catch that already returns the default
classification. -/
def tryBlock (parse : String → Option JVal) (o : FetchOutcome) :
    Except String JVal :=
  match o with
  | .netError => .error "fetch failed"
  | .response ok body =>
    if !ok then .error "API request failed"
    else
      match body with
      | none => .error "response body is not valid JSON"
      | some j =>
        match extractText j with
        | none => .error "cannot read reply text"
        | some t =>
          match parse (cleanFences t) with
          | none => .ok defaultClassification
          | some c =>
            if validateFields c then .ok c else .ok defaultClassification

/-- classifyContent: without an API key the default is returned at
once; otherwise the try block runs and its outer catch maps every
thrown error to the default classification.  parse stands for the
JSON.parse builtin. -/
def classifyContent (hasKey : Bool) (parse : String → Option JVal)
    (o : FetchOutcome) : Except String JVal :=
  if !hasKey then .ok defaultClassification
  else
    match tryBlock parse o with
    | .ok v => .ok v
    | .error _ => .ok defaultClassification

/-- The failure modes enumerated by claim C7: network failure, non-2xx
response, unreadable body or reply text, JSON parse failure of the
cleaned reply, or missing required fields. -/
def classifyFails (parse : String → Option JVal) (o : FetchOutcome) : Bool :=
  match o with
  | .netError => true
  | .response ok body =>
    !ok ||
    match body with
    | none => true
    | some j =>
      match extractText j with
      | none => true
      | some t =>
        match parse (cleanFences t) with
        | none => true
        | some c => !validateFields c

/-- Claim C7: classifyContent never propagates a thrown failure (its
result is always an ok value), and on every failure mode it returns the
fixed default classification, type dataset, format json, confidence
0.8. -/
theorem c7_classification (hasKey : Bool) (parse : String → Option JVal)
    (o : FetchOutcome) :
    (∃ v, classifyContent hasKey parse o = Except.ok v)
    ∧ (classifyFails parse o = true →
        classifyContent hasKey parse o = Except.ok defaultClassification) := by
  cases hasKey with
  | false => exact ⟨⟨defaultClassification, rfl⟩, fun _ => rfl⟩
  | true =>
    constructor
    · cases htb : tryBlock parse o with
      | ok v => exact ⟨v, by simp [classifyContent, htb]⟩
      | error e => exact ⟨defaultClassification, by simp [classifyContent, htb]⟩
    · intro hf
      cases o with
      | netError => simp [classifyContent, tryBlock]
      | response ok body =>
        cases ok with
        | false => simp [classifyContent, tryBlock]
        | true =>
          cases body with
          | none => simp [classifyContent, tryBlock]
          | some j =>
            cases hext : extractText j with
            | none => simp [classifyContent, tryBlock, hext]
            | some t =>
              cases hp : parse (cleanFences t) with
              | none => simp [classifyContent, tryBlock, hext, hp]
              | some c =>
                have hv : validateFields c = false := by
                  simpa [classifyFails, hext, hp] using hf
                simp [classifyContent, tryBlock, hext, hp, hv]

/-- A parse oracle that always fails, for the witness of claim C7. -/
def c7Parse : String → Option JVal := fun _ => none

/-- Witness for claim C7 at a concrete failing outcome: a network
failure yields the default classification and no thrown error. -/
theorem c7_witness :
    (∃ v, classifyContent true c7Parse FetchOutcome.netError = Except.ok v)
    ∧ classifyContent true c7Parse FetchOutcome.netError
        = Except.ok defaultClassification := by
  have h := c7_classification true c7Parse FetchOutcome.netError
  exact ⟨h.1, h.2 rfl⟩

/-! ## Prompt node execution guard
(executedNodes, executePrompt and the mount effect,
src/unnamed/part_003 lines 68-69, 139-222) -/

/-- The prompt and input of a PromptNode as read by executePrompt. -/
structure PromptData where
  prompt : Option String
  input : Option String
  deriving DecidableEq, Repr

/-- The events that can call executePrompt: a run of the mount effect
with the current node data, or a tabContentUpdated window event (the
listener executes the prompt of the node whose id equals the event tab
id).  No code in the repository dispatches tabContentUpdated. -/
inductive PNEvent where
  | effectRun (nodeId : String) (d : PromptData)
  | tabUpdate (tabId : String) (d : PromptData)
  deriving DecidableEq, Repr

/-- JavaScript truthiness of an optional string. -/
def jsTruthyOpt : Option String → Bool
  | none => false
  | some s => decide (s ≠ "")

/-- The external text-generation calls issued by one run of
executePrompt: none when the prompt is falsy or no API key is set,
otherwise one call carrying the node id, prompt and input. -/
def execPromptCalls (hasKey : Bool) (nodeId : String) (d : PromptData) :
    List (String × String × String) :=
  if jsTruthyOpt d.prompt && hasKey then
    [(nodeId, d.prompt.getD "", d.input.getD "")]
  else []

/-- One event against the module-level executedNodes set: the effect
runs executePrompt only when the node id is not yet in the set and the
prompt is truthy, and then adds the id to the set; the tabUpdate
listener calls executePrompt unconditionally for the matching node. -/
def pnStep (hasKey : Bool) (executed : List String) (e : PNEvent) :
    List String × List (String × String × String) :=
  match e with
  | .effectRun nid d =>
    if nid ∉ executed ∧ jsTruthyOpt d.prompt = true then
      (nid :: executed, execPromptCalls hasKey nid d)
    else (executed, [])
  | .tabUpdate tid d => (executed, execPromptCalls hasKey tid d)

/-- Processes a list of events, collecting external calls. -/
def runPN (hasKey : Bool) :
    List String → List PNEvent → List String × List (String × String × String)
  | ex, [] => (ex, [])
  | ex, e :: es =>
    let r1 := pnStep hasKey ex e
    let r2 := runPN hasKey r1.1 es
    (r2.1, r1.2 ++ r2.2)

/-- Event lists without tabContentUpdated events; these are the only
event lists the repository can produce, since nothing dispatches that
event. -/
def noTabUpdate : List PNEvent → Bool
  | [] => true
  | .tabUpdate _ _ :: _ => false
  | .effectRun _ _ :: es => noTabUpdate es

/-- Number of external calls issued for a given node id. -/
def callsFor (nid : String) (calls : List (String × String × String)) : Nat :=
  (calls.filter fun c => c.1 = nid).length

theorem callsFor_exec_le (hasKey : Bool) (nid nid' : String) (d : PromptData) :
    callsFor nid (execPromptCalls hasKey nid' d) ≤ 1 := by
  unfold execPromptCalls callsFor
  split
  · simp only [List.filter]
    split <;> simp
  · simp

theorem callsFor_exec_ne (hasKey : Bool) (nid nid' : String) (d : PromptData)
    (h : nid ≠ nid') :
    callsFor nid (execPromptCalls hasKey nid' d) = 0 := by
  unfold execPromptCalls callsFor
  split
  · simp [Ne.symm h]
  · simp

theorem runPN_calls_le :
    ∀ (es : List PNEvent) (ex : List String) (nid : String) (hasKey : Bool),
      noTabUpdate es = true →
      callsFor nid (runPN hasKey ex es).2 ≤ if nid ∈ ex then 0 else 1 := by
  intro es
  induction es with
  | nil =>
    intro ex nid hasKey _
    unfold runPN callsFor
    split <;> simp
  | cons e es ih =>
    intro ex nid hasKey hnt
    cases e with
    | tabUpdate tid d => simp [noTabUpdate] at hnt
    | effectRun nid' d =>
      have hnt' : noTabUpdate es = true := by simpa [noTabUpdate] using hnt
      have hunfold : runPN hasKey ex (PNEvent.effectRun nid' d :: es)
          = ((runPN hasKey (pnStep hasKey ex (.effectRun nid' d)).1 es).1,
             (pnStep hasKey ex (.effectRun nid' d)).2
               ++ (runPN hasKey (pnStep hasKey ex (.effectRun nid' d)).1 es).2) := rfl
      rw [hunfold]
      by_cases hg : nid' ∉ ex ∧ jsTruthyOpt d.prompt = true
      · have hstep : pnStep hasKey ex (.effectRun nid' d)
            = (nid' :: ex, execPromptCalls hasKey nid' d) := by
          simp [pnStep, hg]
        rw [hstep]
        have hrest := ih (nid' :: ex) nid hasKey hnt'
        have hsum : callsFor nid
            (execPromptCalls hasKey nid' d
              ++ (runPN hasKey (nid' :: ex) es).2)
            = callsFor nid (execPromptCalls hasKey nid' d)
              + callsFor nid (runPN hasKey (nid' :: ex) es).2 := by
          simp [callsFor]
        rw [hsum]
        by_cases heq : nid = nid'
        · subst heq
          have h0 : callsFor nid (runPN hasKey (nid :: ex) es).2 = 0 := by
            have h' := hrest
            simp at h'
            omega
          have h1 := callsFor_exec_le hasKey nid nid d
          have h2 : nid ∉ ex := hg.1
          rw [if_neg h2]
          omega
        · have h0 := callsFor_exec_ne hasKey nid nid' d heq
          rw [h0]
          by_cases hmem2 : nid ∈ ex
          · have hz : (if nid ∈ nid' :: ex then 0 else 1) = 0 :=
              if_pos (List.mem_cons_of_mem _ hmem2)
            rw [hz] at hrest
            rw [if_pos hmem2]
            omega
          · have hone : callsFor nid (runPN hasKey (nid' :: ex) es).2 ≤ 1 :=
              le_trans hrest (by split <;> omega)
            rw [if_neg hmem2]
            omega
      · have hstep : pnStep hasKey ex (.effectRun nid' d) = (ex, []) := by
          simp [pnStep, hg]
        rw [hstep]
        simpa [callsFor] using ih ex nid hasKey hnt'

theorem filter_length_mono {α : Type} (l : List α) (p q : α → Bool)
    (h : ∀ a ∈ l, p a = true → q a = true) :
    (l.filter p).length ≤ (l.filter q).length := by
  induction l with
  | nil => simp
  | cons a l ih =>
    have ih' := ih fun x hx hh => h x (List.mem_cons_of_mem _ hx) hh
    simp only [List.filter_cons]
    by_cases hp : p a = true
    · rw [if_pos hp, if_pos (h a (List.mem_cons_self _ _) hp)]
      simpa using ih'
    · rw [if_neg hp]
      split
      · exact le_trans ih' (by simp)
      · exact ih'

/-- Claim C8: starting from the empty executedNodes set, a Prompt node
issues at most one external text-generation call for any settled
(prompt, input) pair over any event sequence the repository can produce
(no code dispatches the tabContentUpdated event, which is the only
unguarded path to executePrompt); re-entering the same pair after it
was resolved does not re-invoke the service. -/
theorem c8_prompt_idempotence (hasKey : Bool) (events : List PNEvent)
    (nid p i : String) (hnt : noTabUpdate events = true) :
    ((runPN hasKey [] events).2.filter fun c => c = (nid, p, i)).length ≤ 1 := by
  have hle := runPN_calls_le events [] nid hasKey hnt
  simp at hle
  have hmono : ((runPN hasKey [] events).2.filter fun c => c = (nid, p, i)).length
      ≤ callsFor nid (runPN hasKey [] events).2 := by
    unfold callsFor
    apply filter_length_mono
    intro a _ ha
    have : a = (nid, p, i) := by simpa using ha
    simp [this]
  omega

/-- Witness for claim C8 at a concrete event list: two effect runs with
the same node and the same (prompt, input) pair issue at most one
call. -/
theorem c8_witness :
    ((runPN true []
        [PNEvent.effectRun "n1" ⟨some "p", some "i"⟩,
         PNEvent.effectRun "n1" ⟨some "p", some "i"⟩]).2.filter
        fun c => c = ("n1", "p", "i")).length ≤ 1 := by
  exact c8_prompt_idempotence true
    [PNEvent.effectRun "n1" ⟨some "p", some "i"⟩,
     PNEvent.effectRun "n1" ⟨some "p", some "i"⟩] "n1" "p" "i" rfl

/-! ## Spreadsheet node input processing
(processInput, src/components/nodes/SpreadsheetNode.tsx lines 101-149) -/

/-- The externally visible actions a node effect can take: dispatching
an updateNodeOutput event, or calling the external tabular-document
service (only the separate GoogleSheetsNode does the latter). -/
inductive SpreadAction where
  | emitOutput (nodeId : String) (out : String)
  | callTabularService (nodeId : String) (payload : String)
  deriving DecidableEq, Repr

/-- The engine message of the TypeError thrown by Object.keys on
undefined or null. -/
def keysErrorText : String := "Cannot convert undefined or null to object"

/-- Whether a JSON value is null (the only JSON value on which
Object.keys throws). -/
def isJNull : JVal → Bool
  | .jnull => true
  | _ => false

/-- processInput of SpreadsheetNode: runs only when the input is truthy
and the output is not yet set.  It parses the input with JSON.parse
(the parse parameter; perr gives the engine message of the SyntaxError
on failure).  For a parsed array it derives the grid columns from
Object.keys of the first element, which throws for an empty array
(first element undefined) and for a null first element; the catch then
dispatches an Error output.  Otherwise it dispatches the input string
itself as the node output.  A parsed non-array dispatches nothing.  The
node never calls the tabular-document service. -/
def processInput (parse : String → Option JVal) (perr : String → String)
    (nodeId : String) (inp outp : Option String) : List SpreadAction :=
  if jsTruthyOpt inp && !(jsTruthyOpt outp) then
    match inp with
    | none => []
    | some s =>
      match parse s with
      | none => [SpreadAction.emitOutput nodeId ("Error: " ++ perr s)]
      | some v =>
        match v with
        | .jarr [] =>
            [SpreadAction.emitOutput nodeId ("Error: " ++ keysErrorText)]
        | .jarr (x :: _) =>
            if isJNull x then
              [SpreadAction.emitOutput nodeId ("Error: " ++ keysErrorText)]
            else [SpreadAction.emitOutput nodeId s]
        | _ => []
  else []

theorem processInput_only_emits (parse : String → Option JVal)
    (perr : String → String) (nodeId : String) (inp outp : Option String) :
    ∀ a ∈ processInput parse perr nodeId inp outp,
      ∃ out, a = SpreadAction.emitOutput nodeId out := by
  intro a ha
  simp only [processInput] at ha
  repeat' split at ha
  all_goals simp_all

/-- A parse oracle agreeing with JSON.parse on the empty-array literal,
for the counterexample to claim C10. -/
def c10Parse : String → Option JVal := fun s =>
  if s = "[]" then some (JVal.jarr []) else none

/-- A fixed engine message for JSON.parse failures in the concrete
scenarios (never reached by them). -/
def c10Perr : String → String := fun _ => "unexpected token"

/-- Claim C10 is false on the code for the empty JSON array: the input
string parses as a JSON array, yet the node dispatches an Error output
(Object.keys of the undefined first element throws) instead of passing
the input string through. -/
theorem c10_counterexample :
    c10Parse "[]" = some (JVal.jarr [])
    ∧ processInput c10Parse c10Perr "n1" (some "[]") none
        = [SpreadAction.emitOutput "n1" ("Error: " ++ keysErrorText)]
    ∧ ("Error: " ++ keysErrorText) ≠ "[]" := by
  refine ⟨rfl, rfl, by decide⟩

/-- Amended claim C10: for a Spreadsheet node whose non-empty input
parses as a JSON array that is non-empty and whose first element is not
null, processInput dispatches exactly the input string as the node
output (identity pass-through); and whatever the input, every action
of this node kind is an output dispatch: the external tabular-document
service is never called and no documentUrl is produced.  For the empty
array (or a null first element) an Error output is dispatched
instead. -/
theorem c10_amended (parse : String → Option JVal) (perr : String → String)
    (nodeId s : String) (x : JVal) (xs : List JVal)
    (hs : s ≠ "") (hp : parse s = some (JVal.jarr (x :: xs)))
    (hx : isJNull x = false) :
    processInput parse perr nodeId (some s) none
      = [SpreadAction.emitOutput nodeId s]
    ∧ ∀ (inp outp : Option String) (a : SpreadAction),
        a ∈ processInput parse perr nodeId inp outp →
        ∀ n pl : String, a ≠ SpreadAction.callTabularService n pl := by
  constructor
  · simp [processInput, jsTruthyOpt, hs, hp, hx]
  · intro inp outp a ha n pl
    rcases processInput_only_emits parse perr nodeId inp outp a ha with ⟨out, rfl⟩
    simp

/-- A parse oracle agreeing with JSON.parse on a one-element array
literal, for the witness of the amended claim C10. -/
def c10wParse : String → Option JVal := fun s =>
  if s = "[1]" then some (JVal.jarr [JVal.jnum 1]) else none

/-- Witness for the amended claim C10 at a concrete input: the
one-element array input is passed through unchanged and nothing calls
the tabular-document service. -/
theorem c10_amended_witness :
    processInput c10wParse c10Perr "n1" (some "[1]") none
      = [SpreadAction.emitOutput "n1" "[1]"]
    ∧ ∀ n pl : String,
        SpreadAction.emitOutput "n1" "[1]" ≠ SpreadAction.callTabularService n pl := by
  have h := c10_amended c10wParse c10Perr "n1" "[1]" (JVal.jnum 1) []
    (by decide) rfl rfl
  refine ⟨h.1, ?_⟩
  intro n pl
  exact h.2 (some "[1]") none _ (by rw [h.1]; exact List.mem_singleton_self _) n pl
